import Mathlib

/-!
Shallow embedding of the revision/ref/file core of qgitx (src/git.cpp and
src/mainimpl.cpp).  External subprocess invocations are modelled by an
oracle `Env.runRes : String → Option String` mapping a command line to its
output on success (`none` = non-zero exit / spawn failure); each modelled
operation returns, besides its value, the updated state and the list of
command lines it issued, in order.  Qt string primitives (`section`,
`split`, `replace`, `trimmed`, `contains`) are re-implemented on `List
Char` with fuel-based structural recursion so that all definitions
evaluate inside the kernel.
-/

set_option autoImplicit false

namespace QGitx

/-! ### Qt string primitives -/

/-- `QString::split` / the field decomposition of `QString::section`:
split on a (non-empty) separator string, keeping empty fields.  The fuel
argument is instantiated with the length of the scanned list, which
always suffices. -/
def splitFuel (sep : List Char) : Nat → List Char → List (List Char)
  | _, [] => [[]]
  | 0, l => [l]
  | fuel + 1, c :: cs =>
    if !sep.isEmpty && sep.isPrefixOf (c :: cs) then
      [] :: splitFuel sep fuel (List.drop (sep.length - 1) cs)
    else
      match splitFuel sep fuel cs with
      | [] => [[c]]
      | h :: t => (c :: h) :: t

def qsplit (s sep : String) : List String :=
  (splitFuel sep.data s.data.length s.data).map (fun l => ⟨l⟩)

/-- `QString::split(QChar)`. -/
def splitChar (sep : Char) : List Char → List (List Char)
  | [] => [[]]
  | c :: cs =>
    if c == sep then [] :: splitChar sep cs
    else
      match splitChar sep cs with
      | [] => [[c]]
      | h :: t => (c :: h) :: t

def qsplitc (sep : Char) (s : String) : List String :=
  (splitChar sep s.data).map (fun l => ⟨l⟩)

/-- `QString::section(sep, a, b)` with the default flags: fields are
counted from 0, negative indices count from the end, out-of-range
selections give the empty string. -/
def qsection (s sep : String) (a b : Int) : String :=
  let fields := qsplit s sep
  let n : Int := fields.length
  let i := if a < 0 then n + a else a
  let j := if b < 0 then n + b else b
  if i < 0 || n ≤ i || j < i then ""
  else String.intercalate sep ((fields.drop i.toNat).take (j - i + 1).toNat)

/-- `QString::replace(before, after)`: left-to-right, non-overlapping,
the replacement text is not rescanned. -/
def replaceFuel (pat rep : List Char) : Nat → List Char → List Char
  | _, [] => []
  | 0, l => l
  | fuel + 1, c :: cs =>
    if !pat.isEmpty && pat.isPrefixOf (c :: cs) then
      rep ++ replaceFuel pat rep fuel (List.drop (pat.length - 1) cs)
    else
      c :: replaceFuel pat rep fuel cs

def qreplace (s pat rep : String) : String :=
  ⟨replaceFuel pat.data rep.data s.data.length s.data⟩

/-- Substring occurrence on character lists. -/
def infixOfL (l : List Char) : List Char → Bool
  | [] => l.isEmpty
  | c :: cs => l.isPrefixOf (c :: cs) || infixOfL l cs

/-- `QString::contains(QString)`. -/
def qcontains (s sub : String) : Bool :=
  infixOfL sub.data s.data

/-- `QString::trimmed`. -/
def qtrim (s : String) : String :=
  ⟨((s.data.dropWhile Char.isWhitespace).reverse.dropWhile Char.isWhitespace).reverse⟩

/-- `QString("%1 ").arg(n, 6)`: `n` right-justified in a field of width
6, space-filled, followed by one space. -/
def padIdx (n : Nat) : String :=
  let s := toString n
  ⟨List.replicate (6 - s.length) ' '⟩ ++ s ++ " "

/-- `QStringList::sort()` (lexicographic). -/
def insertSorted (x : String) : List String → List String
  | [] => [x]
  | y :: ys => if x ≤ y then x :: y :: ys else y :: insertSorted x ys

def sortStrings (l : List String) : List String :=
  l.foldr insertSorted []

/-! ### Data model (spec section 3, git.h / cache.h records) -/

/-- A revision record, keyed by its 40-hex identifier in
`GitState.revs`.  Fields carry exactly what the queries modelled below
read: parent identifiers, order index, child back-links (indices into
the load order), the short log, and the shared near-tag/branch master
indirections (`-1` = none, as in the source). -/
structure Rev where
  parents : List String
  orderIdx : Nat
  childs : List Nat
  shortLog : String
  descBrnMaster : Int
  descRefsMaster : Int
  ancRefsMaster : Int
  descBranches : List Nat
  descRefs : List Nat
  ancRefs : List Nat
deriving Repr, DecidableEq, Inhabited

/-- Modelled from the spec: file statuses in `cache.h` (not among the
reviewed sources).  Spec section 3 gives each changed-file entry one
status among added/modified/deleted/renamed/copied/unknown/in-index. -/
inductive FileStatus
  | added | modified | deleted | renamed | copied | unknown | inIndex
deriving Repr, DecidableEq, BEq, Inhabited

/-- One changed-file entry.  The source stores interned indices into
shared directory/file-name tables (`dirAt`/`nameAt` into `dirNamesVec` /
`fileNamesVec`); interning preserves string equality, so the entry here
holds the directory and name strings themselves.  `extStatus` is the
rename/copy arrow text ("orig --> dest"), empty when absent. -/
structure FileEntry where
  dir : String
  name : String
  status : FileStatus
  extStatus : String
deriving Repr, DecidableEq, Inhabited

/-- `RevFile`: the changed-file set of one commit (or commit pair). -/
structure RevFile where
  entries : List FileEntry
deriving Repr, DecidableEq, Inhabited

/-- One `Reference` record of the reference index. -/
structure Reference where
  tags : List String
  branches : List String
  remoteBranches : List String
  refs : List String
  stgitPatch : String
  tagObj : String
  tagMsg : String
  currentBranch : String
deriving Repr, DecidableEq, Inhabited

inductive RefType
  | TAG | BRANCH | RMT_BRANCH | REF | APPLIED | UN_APPLIED | ANY_REF
deriving Repr, DecidableEq, BEq, Inhabited

/-- The mutable state of the `Git` object: the revision store
(`revs` keyed by identifier, `revOrder` the load order), the file-state
cache `revsFiles`, the reference index `refsShaMap` (association list in
its internal enumeration order), the process-wide error-reporting flag,
the unknown working-directory files, and a modelled filesystem `fs`
holding the paths of existing transient files. -/
structure GitState where
  revs : List (String × Rev)
  revOrder : List String
  revsFiles : List (String × RevFile)
  refsShaMap : List (String × Reference)
  errorReportingEnabled : Bool
  otherFiles : List String
  fs : List String
  workDir : String
  gitDir : String
  isTextHighlighterFound : Bool
  textHighlighterVersionFound : String
  cacheNeedsUpdate : Bool
deriving Repr, DecidableEq, Inhabited

/-- The deterministic external world: subprocess results per command
line (`none` = failure), file-write success per path, the joined system
environment, and the persisted user settings read by the commit
operations. -/
structure Env where
  runRes : String → Option String
  writeOk : String → Bool
  sysEnv : String
  settingsCMArgs : String
  flagSign : Bool
  flagVerify : Bool
  optOnlyInIndex : Bool

/-! ### Constants (QGit namespace, common.h — not among the reviewed
sources; modelled from the spec) -/

/-- Modelled from the spec: the reserved sentinel identifier of the
synthetic working-directory revision (`ZERO_SHA`, common.h). -/
def ZERO_SHA : String := "0000000000000000000000000000000000000000"

/-- Modelled from the spec: the "one fixed transient cache key" under
which an arbitrary pairwise diff result is stored (`CUSTOM_SHA`,
common.h). -/
def CUSTOM_SHA : String := "*** CUSTOM * CUSTOM ***"

/-- Modelled from the spec: the synthetic key marker for combined
merge-diff file sets (`ALL_MERGE_FILES`, common.h). -/
def ALL_MERGE_FILES : String := "ALL_MERGE_FILES"

/-- Modelled from the spec: the sentinel delimiter character used to
quote subprocess arguments (`QUOTE_CHAR`, common.h). -/
def QUOTE_CHAR : String := "$"

/-- Modelled from the spec: the minimum supported tool version
(`GIT_VERSION`, common.h). -/
def GIT_VERSION : String := "1.5.5"

/-- `Git::quote(SCRef)`. -/
def quote (nm : String) : String :=
  QUOTE_CHAR ++ nm ++ QUOTE_CHAR

/-- `Git::quote(SCList)`. -/
def quoteList (sl : List String) : String :=
  QUOTE_CHAR ++ String.intercalate (QUOTE_CHAR ++ " " ++ QUOTE_CHAR) sl ++ QUOTE_CHAR

/-! ### Revision Store queries (git.cpp) -/

/-- `Git::revLookup`: an empty identifier has a null raw pointer and
yields no record; otherwise the revision map is consulted. -/
def revLookup (st : GitState) (sha : String) : Option Rev :=
  if sha == "" then none else List.lookup sha st.revs

/-- `Git::getShortLog`. -/
def getShortLog (st : GitState) (sha : String) : String :=
  match revLookup st sha with
  | some r => r.shortLog
  | none => ""

/-- `Git::getChilds`: collect the children via the order indices stored
in the parent's back-links, then reorder them by loading order by
prefixing each with its padded order index, sorting, and stripping the
prefix again. -/
def getChilds (st : GitState) (parent : String) : List String :=
  match revLookup st parent with
  | none => []
  | some r =>
    let childs := r.childs.map (fun i => st.revOrder.getD i "")
    let tagged := childs.map (fun c =>
      match revLookup st c with
      | some rc => padIdx rc.orderIdx ++ c
      | none => padIdx 0 ++ c)
    (sortStrings tagged).map (fun s => qsection s " " (-1) (-1))

/-- `Git::getDescendantBranches`. -/
def getDescendantBranches (st : GitState) (sha : String) (shaOnly : Bool) :
    List String :=
  match revLookup st sha with
  | none => []
  | some r =>
    if r.descBrnMaster == -1 then []
    else
      let master := st.revOrder.getD r.descBrnMaster.toNat ""
      let nr := (Option.map (fun m => m.descBranches) (revLookup st master)).getD []
      nr.foldl (fun tl i =>
        let s := st.revOrder.getD i ""
        if shaOnly then tl ++ [s]
        else
          let cap := " (" ++ s ++ ") "
          match List.lookup s st.refsShaMap with
          | none => tl
          | some rf =>
            let tl := if rf.branches.isEmpty then tl
                      else tl ++ [String.intercalate " " rf.branches ++ cap]
            if rf.remoteBranches.isEmpty then tl
            else tl ++ [String.intercalate " " rf.remoteBranches ++ cap]) []

/-- `Git::getNearTags`. -/
def getNearTags (st : GitState) (goDown : Bool) (sha : String) : List String :=
  match revLookup st sha with
  | none => []
  | some r =>
    let nearRefsMaster := if goDown then r.descRefsMaster else r.ancRefsMaster
    if nearRefsMaster == -1 then []
    else
      let m := st.revOrder.getD nearRefsMaster.toNat ""
      let nr := if goDown then
                  (Option.map (fun x => x.descRefs) (revLookup st m)).getD []
                else
                  (Option.map (fun x => x.ancRefs) (revLookup st m)).getD []
      nr.foldl (fun tl i =>
        let s := st.revOrder.getD i ""
        let cap := " (" ++ s ++ ")"
        match List.lookup s st.refsShaMap with
        | none => tl
        | some rf => tl ++ [String.intercalate cap rf.tags ++ cap]) []

/-! ### Reference Index resolution (git.cpp) -/

/-- The per-entry match of the `FOREACH` body of `Git::getRefSha`: each
arm guards on the requested type (or `ANY_REF`) and tests the
corresponding name set of the entry. -/
def refNameMatches (rf : Reference) (refName : String) (t : RefType) : Bool :=
  ((t == RefType.ANY_REF || t == RefType.TAG) && rf.tags.contains refName)
  || ((t == RefType.ANY_REF || t == RefType.BRANCH) && rf.branches.contains refName)
  || ((t == RefType.ANY_REF || t == RefType.RMT_BRANCH) && rf.remoteBranches.contains refName)
  || ((t == RefType.ANY_REF || t == RefType.REF) && rf.refs.contains refName)
  || ((t == RefType.ANY_REF || t == RefType.APPLIED || t == RefType.UN_APPLIED)
        && rf.stgitPatch == refName)

/-- The `FOREACH` loop of `Git::getRefSha`: the key of the first entry
(in enumeration order) whose reference record matches. -/
def getRefShaFind (refName : String) (t : RefType) :
    List (String × Reference) → Option String
  | [] => none
  | (sha, rf) :: rest =>
    if refNameMatches rf refName t then some sha
    else getRefShaFind refName t rest

/-- `Git::getRefSha`: scan the reference index; when nothing matches and
`askGit` is set, fall back to resolving an abbreviated form via
`git rev-parse --revs-only` with error reporting suppressed around the
probe. -/
def getRefSha (st : GitState) (env : Env) (refName : String) (t : RefType)
    (askGit : Bool) : String × GitState × List String :=
  match getRefShaFind refName t st.refsShaMap with
  | some sha => (sha, st, [])
  | none =>
    if !askGit then ("", st, [])
    else
      let cmd := "git rev-parse --revs-only " ++ refName
      let st1 := {st with errorReportingEnabled := true}
      match env.runRes cmd with
      | some out => (qtrim out, st1, [cmd])
      | none => ("", st1, [cmd])

/-! ### File-State Cache (git.cpp) -/

/-- Modelled from the spec: the status letter decoding of
`Git::parseDiffFormat` (git_startup.cpp, not among the reviewed
sources).  Spec section 4.2: "each file entry carries a status letter
(A/M/D/R/C/U/?) and one or two paths". -/
def statusOfField (f : String) : FileStatus :=
  match f.data with
  | 'A' :: _ => FileStatus.added
  | 'M' :: _ => FileStatus.modified
  | 'D' :: _ => FileStatus.deleted
  | 'R' :: _ => FileStatus.renamed
  | 'C' :: _ => FileStatus.copied
  | 'U' :: _ => FileStatus.inIndex
  | '?' :: _ => FileStatus.unknown
  | _ => FileStatus.modified

/-- `QString::lastIndexOf(QChar)` specialised to '/' (−1 = no
occurrence), as used by `Git::findFileIndex`. -/
def lastSlashPos (s : String) : Int :=
  match List.findIdx? (fun c => c == '/') s.data.reverse with
  | some k => Int.ofNat (s.data.length - 1 - k)
  | none => -1

/-- Split a path into its directory part (up to and including the last
'/') and its file-name part, as `Git::findFileIndex` does with
`left`/`mid` and as the name-interning tables separate them. -/
def splitPath (p : String) : String × String :=
  let idx := (lastSlashPos p + 1).toNat
  (⟨p.data.take idx⟩, ⟨p.data.drop idx⟩)

def mkFileEntry (p : String) (s : FileStatus) (ext : String) : FileEntry :=
  let d := splitPath p
  ⟨d.1, d.2, s, ext⟩

/-- Modelled from the spec: one record of `Git::parseDiffFormat` /
`Git::setExtStatus` (git_startup.cpp, not among the reviewed sources).
A line is `<letter>\t<path>`, or `<letter>\t<orig>\t<dest>` for a
rename/copy; per spec section 4.2 "when a rename/copy arrow is present
('old --> new'), both names are recorded and the entry is flagged
accordingly", so a rename/copy contributes a destination entry (flagged
renamed/copied, extended status "orig --> dest") followed by an origin
entry (flagged deleted for a rename, added for a copy, sharing the
extended status).  Malformed records are skipped. -/
def parseDiffLine (line : String) : List FileEntry :=
  match qsplitc '\t' line with
  | [stf, p] =>
    if stf == "" || p == "" then []
    else [mkFileEntry p (statusOfField stf) ""]
  | [stf, orig, dest] =>
    let s := statusOfField stf
    if s == FileStatus.renamed then
      let ext := orig ++ " --> " ++ dest
      [mkFileEntry dest FileStatus.renamed ext,
       mkFileEntry orig FileStatus.deleted ext]
    else if s == FileStatus.copied then
      let ext := orig ++ " --> " ++ dest
      [mkFileEntry dest FileStatus.copied ext,
       mkFileEntry orig FileStatus.added ext]
    else []
  | _ => []

/-- Modelled from the spec: `Git::parseDiffFormat` over a whole diff
output (one record per line). -/
def parseDiffFormat (data : String) : RevFile :=
  ⟨((qsplitc '\n' data).map parseDiffLine).flatten⟩

/-- Modelled from the spec: `RevFile::statusCmp` (cache.h, not among the
reviewed sources) compares the status of the entry at the given index
with the queried one; an out-of-range index matches nothing. -/
def statusCmp (rf : RevFile) (i : Int) (s : FileStatus) : Bool :=
  if i < 0 then false
  else
    match rf.entries.get? i.toNat with
    | some e => e.status == s
    | none => false

/-- Modelled from the spec: `RevFile::extendedStatus` (cache.h, not
among the reviewed sources): the rename/copy arrow text of the entry at
the given index, empty when absent. -/
def extendedStatus (rf : RevFile) (i : Nat) : String :=
  (rf.entries.getD i default).extStatus

/-- `Git::filePath`: directory part concatenated with the file name of
the entry at an index. -/
def filePath (rf : RevFile) (i : Nat) : String :=
  match rf.entries.get? i with
  | some e => e.dir ++ e.name
  | none => ""

/-- `Git::findFileIndex`: split the queried name at its last '/', then
return the first entry index whose interned name and directory both
match, or −1. -/
def findFileIndex (rf : RevFile) (name : String) : Int :=
  if name == "" then -1
  else
    let idx := (lastSlashPos name + 1).toNat
    let dr : String := ⟨name.data.take idx⟩
    let nm : String := ⟨name.data.drop idx⟩
    match rf.entries.findIdx? (fun e => e.name == nm && e.dir == dr) with
    | some i => Int.ofNat i
    | none => -1

/-- `Git::removeExtraFileInfo`: map a formatted rename/copy row name
back to the destination-only file name. -/
def removeExtraFileInfo (rowName : String) : String :=
  if qcontains rowName " --> " then
    qsection (qsection rowName " --> " 1 1) " (" 0 0
  else rowName

/-- `QHash::insert`: replacing insertion into the file cache. -/
def qinsert (m : List (String × RevFile)) (k : String) (v : RevFile) :
    List (String × RevFile) :=
  (k, v) :: m.filter (fun p => p.1 != k)

/-- `Git::insertNewFiles`: parse a diff output and store it in the file
cache under the given key. -/
def insertNewFiles (st : GitState) (sha data : String) : RevFile × GitState :=
  let rf := parseDiffFormat data
  (rf, {st with revsFiles := qinsert st.revsFiles sha rf})

/-- `Git::runDiffTreeWithRenameDetection`: first try the command with
`-C` inserted (error reporting suppressed around the attempt, since the
tool may refuse inexact rename detection); if and only if that fails,
run the original command once. -/
def runDiffTreeWithRenameDetection (st : GitState) (env : Env)
    (runCmd : String) : Option String × GitState × List String :=
  let cmd := qreplace runCmd "git diff-tree" "git diff-tree -C"
  let st1 := {st with errorReportingEnabled := true}
  match env.runRes cmd with
  | some out => (some out, st1, [cmd])
  | none => (env.runRes runCmd, st1, [cmd, runCmd])

/-- `Git::getAllMergeFiles`: the combined diff of a merge commit, cached
under the synthetic `ALL_MERGE_FILES` key. -/
def getAllMergeFiles (st : GitState) (env : Env) (sha : String) :
    Option RevFile × GitState × List String :=
  let mySha := ALL_MERGE_FILES ++ sha
  match List.lookup mySha st.revsFiles with
  | some rf => (some rf, st, [])
  | none =>
    match runDiffTreeWithRenameDetection st env
        ("git diff-tree --no-color -r -m " ++ sha) with
    | (none, st1, tr) => (none, st1, tr)
    | (some out, st1, tr) =>
      let ins := insertNewFiles st1 mySha out
      (some ins.1, ins.2, tr)

/-- The arbitrary-pair branch of `Git::getFiles` (non-empty diff
target, source not the working-directory sentinel): run the pairwise
diff-tree and store the parsed result under the fixed transient
`CUSTOM_SHA` key, overwriting it on each request. -/
def getFilesPair (st : GitState) (env : Env) (sha diffToSha path : String) :
    Option RevFile × GitState × List String :=
  match runDiffTreeWithRenameDetection st env
      ("git diff-tree --no-color -r -m " ++ diffToSha ++ " " ++ sha
        ++ (if path != "" then " " ++ path else "")) with
  | (none, st1, tr) => (none, st1, tr)
  | (some out, st1, tr) =>
    let ins := insertNewFiles st1 CUSTOM_SHA out
    (some ins.1, ins.2, tr)

/-- The single-commit branch of `Git::getFiles`: serve from the cache
when present (the working-directory sentinel always arrives here and is
never recomputed into the permanent cache), otherwise run the diff-tree
against the parent and cache the parsed result under the commit's own
key. -/
def getFilesPlain (st : GitState) (env : Env) (sha : String) :
    Option RevFile × GitState × List String :=
  match List.lookup sha st.revsFiles with
  | some rf => (some rf, st, [])
  | none =>
    if sha == ZERO_SHA then (none, st, [])
    else
      match runDiffTreeWithRenameDetection st env
          ("git diff-tree --no-color -r -c " ++ sha) with
      | (none, st1, tr) => (none, st1, tr)
      | (some out, st1, tr) =>
        match List.lookup sha st1.revsFiles with
        | some rf => (some rf, st1, tr)
        | none =>
          let ins := insertNewFiles st1 sha out
          (some ins.1, {ins.2 with cacheNeedsUpdate := true}, tr)

/-- `Git::getFiles`: dispatch on the revision record and the request
shape — unknown or parentless revisions answer absent at once. -/
def getFiles (st : GitState) (env : Env) (sha diffToSha : String)
    (allFiles : Bool) (path : String) : Option RevFile × GitState × List String :=
  match revLookup st sha with
  | none => (none, st, [])
  | some r =>
    if r.parents.length == 0 then (none, st, [])
    else if r.parents.length > 1 && diffToSha == "" && allFiles then
      getAllMergeFiles st env sha
    else if diffToSha != "" && sha != ZERO_SHA then
      getFilesPair st env sha diffToSha path
    else
      getFilesPlain st env sha

/-- `Git::isNothingToCommit`. -/
def isNothingToCommit (st : GitState) : Bool :=
  match List.lookup ZERO_SHA st.revsFiles with
  | none => true
  | some rf => rf.entries.length == st.otherFiles.length

/-- `Git::isTreeModified`: with no file information the safe side is
"modified"; otherwise the tree counts as modified as soon as some entry
has a status other than plain modified. -/
def isTreeModified (st : GitState) (env : Env) (sha : String) :
    Bool × GitState × List String :=
  match getFiles st env sha "" false "" with
  | (none, st1, tr) => (true, st1, tr)
  | (some f, st1, tr) =>
    ((List.range f.entries.length).any
       (fun i => !(statusCmp f (Int.ofNat i) FileStatus.modified)), st1, tr)

/-- `Git::isParentOf`: direct single-parent relationship (no merges). -/
def isParentOf (st : GitState) (par child : String) : Bool :=
  match revLookup st child with
  | some c => c.parents.length == 1 && c.parents.getD 0 "" == par
  | none => false

/-- `Git::isSameFiles`: the parent/child fast path answers from the
file cache via `isTreeModified`; only the general case issues the
pairwise `git diff-tree` call and scans its output for additions or
deletions. -/
def isSameFiles (st : GitState) (env : Env) (tree1Sha tree2Sha : String) :
    Bool × GitState × List String :=
  if isParentOf st tree1Sha tree2Sha then
    match isTreeModified st env tree2Sha with
    | (b, st1, tr) => (!b, st1, tr)
  else if isParentOf st tree2Sha tree1Sha then
    match isTreeModified st env tree1Sha with
    | (b, st1, tr) => (!b, st1, tr)
  else
    let runCmd := "git diff-tree --no-color -r " ++ tree1Sha ++ " " ++ tree2Sha
    match env.runRes runCmd with
    | none => (false, st, [runCmd])
    | some out =>
      let isChanged := qcontains out " A\t" || qcontains out " D\t"
      (!isChanged, st, [runCmd])

/-! ### Environment probes and configuration reads (git.cpp) -/

/-- `Git::checkEnvironment`: probe the tool version (aborting when even
that fails), then probe the optional highlighter with error reporting
suppressed around the probe.  The too-old-version notification only
posts an event to the excluded UI layer. -/
def checkEnvironment (st : GitState) (env : Env) : GitState × List String :=
  match env.runRes "git --version" with
  | none => (st, ["git --version"])
  | some versionOut =>
    let version := qsection (qsection versionOut " " (-1) (-1)) "." 0 2
    let _tooOld := version < GIT_VERSION
    let st1 := {st with errorReportingEnabled := true}
    match env.runRes "source-highlight -V" with
    | some v =>
      ({st1 with isTextHighlighterFound := true,
                 textHighlighterVersionFound := qsection v "\n" 0 0},
       ["git --version", "source-highlight -V"])
    | none =>
      ({st1 with isTextHighlighterFound := false,
                 textHighlighterVersionFound := "GNU source-highlight not installed"},
       ["git --version", "source-highlight -V"])

/-- `Git::userInfo`: read name/email from the system environment and
from the local and global configuration, the four `git config` reads
performed with error reporting suppressed (they may legitimately
fail). -/
def userInfo (st : GitState) (env : Env) :
    List String × GitState × List String :=
  let user := qtrim (qsection (qsection (qsection env.sysEnv "GIT_AUTHOR_NAME" 1 (-1)) "," 0 0) "=" 1 (-1))
  let email := qtrim (qsection (qsection (qsection env.sysEnv "GIT_AUTHOR_EMAIL" 1 (-1)) "," 0 0) "=" 1 (-1))
  let u1 := (env.runRes "git config user.name").getD ""
  let e1 := (env.runRes "git config user.email").getD ""
  let u2 := (env.runRes "git config --global user.name").getD ""
  let e2 := (env.runRes "git config --global user.email").getD ""
  let st1 := {st with errorReportingEnabled := true}
  (["Environment", user, email, "Local config", u1, e1, "Global config", u2, e2],
   st1,
   ["git config user.name", "git config user.email",
    "git config --global user.name", "git config --global user.email"])

/-! ### Commit operations and transient temp files (git.cpp) -/

/-- Modelled from the spec: the `writeToFile` helper (common.cpp, not
among the reviewed sources) writes content to a path and reports
success; on success the file exists afterwards. -/
def writeToFile (st : GitState) (env : Env) (path _content : String) :
    Bool × GitState :=
  if env.writeOk path then (true, {st with fs := path :: st.fs})
  else (false, st)

/-- `QDir::remove`. -/
def dirRemove (st : GitState) (path : String) : GitState :=
  {st with fs := st.fs.filter (fun p => p != path)}

/-- `Git::getOtherFiles`: the working-directory files not among the
selected ones (optionally only those already updated in the index). -/
def getOtherFiles (st : GitState) (env : Env) (selFiles : List String)
    (onlyInIndex : Bool) : List String × GitState × List String :=
  match getFiles st env ZERO_SHA "" false "" with
  | (none, st1, tr) => ([], st1, tr)
  | (some files, st1, tr) =>
    let notSel := (List.range files.entries.length).foldl (fun acc i =>
      let fp := filePath files i
      if selFiles.contains fp then acc
      else if !onlyInIndex || statusCmp files (Int.ofNat i) FileStatus.inIndex then
        acc ++ [fp]
      else acc) []
    (notSel, st1, tr)

/-- The trailing `git add` step of `Git::updateIndex`. -/
def updateIndexAddStep (st : GitState) (env : Env) (toAdd : List String) :
    Bool × GitState × List String :=
  if toAdd.isEmpty then (true, st, [])
  else
    match env.runRes ("git add -- " ++ quoteList toAdd) with
    | none => (false, st, ["git add -- " ++ quoteList toAdd])
    | some _ => (true, st, ["git add -- " ++ quoteList toAdd])

/-- `Git::updateIndex`: split the selection into deleted files (to be
removed from the index) and the rest (to be added), then run the two
index updates, failing at the first failure. -/
def updateIndex (st : GitState) (env : Env) (selFiles : List String) :
    Bool × GitState × List String :=
  match getFiles st env ZERO_SHA "" false "" with
  | (filesOpt, st1, tr1) =>
    let files := filesOpt.getD ⟨[]⟩
    let toRemove := selFiles.filter
      (fun f => statusCmp files (findFileIndex files f) FileStatus.deleted)
    let toAdd := selFiles.filter
      (fun f => !(statusCmp files (findFileIndex files f) FileStatus.deleted))
    if !toRemove.isEmpty then
      match env.runRes ("git rm --cached --ignore-unmatch -- "
          ++ quoteList toRemove) with
      | none =>
        (false, st1,
         tr1 ++ ["git rm --cached --ignore-unmatch -- " ++ quoteList toRemove])
      | some _ =>
        ((updateIndexAddStep st1 env toAdd).1,
         (updateIndexAddStep st1 env toAdd).2.1,
         tr1 ++ ["git rm --cached --ignore-unmatch -- " ++ quoteList toRemove]
           ++ (updateIndexAddStep st1 env toAdd).2.2)
    else
      ((updateIndexAddStep st1 env toAdd).1,
       (updateIndexAddStep st1 env toAdd).2.1,
       tr1 ++ (updateIndexAddStep st1 env toAdd).2.2)

/-- The `git reset` step of `Git::commitFiles` that drops the
not-selected files from the index (skipped when there are none). -/
def commitResetStep (st : GitState) (env : Env) (notSel : List String) :
    Bool × GitState × List String :=
  if !notSel.isEmpty then
    match env.runRes ("git reset -- " ++ quoteList notSel) with
    | none => (false, st, ["git reset -- " ++ quoteList notSel])
    | some _ => (true, st, ["git reset -- " ++ quoteList notSel])
  else (true, st, [])

/-- The user-selectable commit options of `Git::commitFiles`. -/
def cmtOptionsOf (env : Env) (amend : Bool) : String :=
  (if env.settingsCMArgs != "" then " " ++ env.settingsCMArgs else "")
  ++ (if env.flagSign then " -s" else "")
  ++ (if env.flagVerify then " -v" else "")
  ++ (if amend then " --amend" else "")

/-- `Git::commitFiles`: write the commit message to the transient
message file, reset the not-selected files out of the index, update the
index with the selection, commit with `-F`, restore the not-selected
files — every failure jumps to the common exit that removes the message
file before returning. -/
def commitFiles (st : GitState) (env : Env) (selFiles : List String)
    (msg : String) (amend : Bool) : Bool × GitState × List String :=
  let msgFile := st.gitDir ++ "/qgit_cmt_msg.txt"
  match writeToFile st env msgFile msg with
  | (false, st0) => (false, st0, [])
  | (true, st0) =>
    match getOtherFiles st0 env selFiles env.optOnlyInIndex with
    | (notSel, st1, tr1) =>
      match commitResetStep st1 env notSel with
      | (false, st2, tr2) => (false, dirRemove st2 msgFile, tr1 ++ tr2)
      | (true, st2, tr2) =>
        match updateIndex st2 env selFiles with
        | (false, st3, tr3) =>
          (false, dirRemove st3 msgFile, tr1 ++ tr2 ++ tr3)
        | (true, st3, tr3) =>
          match env.runRes ("git commit" ++ cmtOptionsOf env amend
              ++ " -F " ++ quote msgFile) with
          | none =>
            (false, dirRemove st3 msgFile,
             tr1 ++ tr2 ++ tr3 ++ ["git commit" ++ cmtOptionsOf env amend
               ++ " -F " ++ quote msgFile])
          | some _ =>
            if !notSel.isEmpty then
              match updateIndex st3 env notSel with
              | (ok, st4, tr4) =>
                (ok, dirRemove st4 msgFile,
                 tr1 ++ tr2 ++ tr3 ++ ["git commit" ++ cmtOptionsOf env amend
                   ++ " -F " ++ quote msgFile] ++ tr4)
            else
              (true, dirRemove st3 msgFile,
               tr1 ++ tr2 ++ tr3 ++ ["git commit" ++ cmtOptionsOf env amend
                 ++ " -F " ++ quote msgFile])

/-- `Git::mkPatchFromWorkDir`: update the index with the files, diff the
working directory against the head, and write the patch file. -/
def mkPatchFromWorkDir (st : GitState) (env : Env) (msg patchFile : String)
    (files : List String) : Bool × GitState × List String :=
  match updateIndex st env files with
  | (false, st1, tr1) => (false, st1, tr1)
  | (true, st1, tr1) =>
    let cmd := "git diff -C HEAD -- " ++ quoteList files
    match env.runRes cmd with
    | none => (false, st1, tr1 ++ [cmd])
    | some runOutput =>
      let patch := "Subject: " ++ msg ++ "\n---\n" ++ runOutput
      match writeToFile st1 env patchFile patch with
      | (wok, st2) => (wok, st2, tr1 ++ [cmd])

/-- A sequence of commands run until the first failure (results beyond
a boolean are unused by the caller). -/
def runSeq (env : Env) : List String → Bool × List String
  | [] => (true, [])
  | c :: rest =>
    match env.runRes c with
    | none => (false, [c])
    | some _ =>
      match runSeq env rest with
      | (ok, tr) => (ok, c :: tr)

/-- The `fail_and_unstash` block of `Git::stgCommit`: on a partial
selection, reset the index and pop the stash (the pop performed with
error reporting suppressed, then restored). -/
def stgFailAndUnstash (st : GitState) (_env : Env) (partSelection : Bool) :
    GitState × List String :=
  if partSelection then
    ({st with errorReportingEnabled := true}, ["git reset", "git stash pop"])
  else (st, [])

/-- The stash step of `Git::stgCommit` (performed only on a partial
selection, with error reporting suppressed around the noisy
`git stash`, then restored). -/
def stgStashStep (st : GitState) (partSelection : Bool) :
    GitState × List String :=
  if partSelection then
    ({st with errorReportingEnabled := true}, ["git stash"])
  else (st, [])

/-- The patch-stack command sequence of `Git::stgCommit`: reset the
stack status, then either edit/fold/refresh (fold mode) or import the
patch file. -/
def stgApplyCmds (msg patchName patchFile : String) (fold : Bool) :
    List String :=
  "stg status --reset" ::
  (if fold then
     (if msg != "" then ["stg edit --message " ++ quote (qtrim msg)] else [])
     ++ ["stg fold " ++ quote patchFile, "stg refresh"]
   else
     ["stg import --mail --name " ++ quote patchName ++ " " ++ quote patchFile])

/-- `Git::stgCommit`: create the transient patch file from the working
directory, stash on a partial selection, import or fold the patch into
the patch stack, unstash and restore the index — every exit path,
successful or not, removes the patch file before returning. -/
def stgCommit (st : GitState) (env : Env) (selFiles : List String)
    (msg patchName : String) (fold : Bool) : Bool × GitState × List String :=
  let patchFile := st.gitDir ++ "/qgit_tmp_patch.txt"
  match getOtherFiles st env selFiles (!env.optOnlyInIndex) with
  | (other1, st1, tr1) =>
    let partSelection := !other1.isEmpty
    match (if partSelection then getOtherFiles st1 env selFiles env.optOnlyInIndex
           else ([], st1, [])) with
    | (notSel, st2, tr2) =>
      match mkPatchFromWorkDir st2 env msg patchFile selFiles with
      | (false, st3, tr3) =>
        (false, dirRemove st3 patchFile, tr1 ++ tr2 ++ tr3)
      | (true, st3, tr3) =>
        match stgStashStep st3 partSelection with
        | (st4, tr4) =>
          match runSeq env (stgApplyCmds msg patchName patchFile fold) with
          | (false, trA) =>
            match stgFailAndUnstash st4 env partSelection with
            | (st5, tr5) =>
              (false, dirRemove st5 patchFile,
               tr1 ++ tr2 ++ tr3 ++ tr4 ++ trA ++ tr5)
          | (true, trA) =>
            if partSelection then
              if !notSel.isEmpty then
                match updateIndex {st4 with errorReportingEnabled := true}
                    env notSel with
                | (ok, st6, tr6) =>
                  (ok, dirRemove st6 patchFile,
                   tr1 ++ tr2 ++ tr3 ++ tr4 ++ trA ++ ["git stash pop"] ++ tr6)
              else
                (true, dirRemove {st4 with errorReportingEnabled := true}
                   patchFile,
                 tr1 ++ tr2 ++ tr3 ++ tr4 ++ trA ++ ["git stash pop"])
            else
              (true, dirRemove st4 patchFile, tr1 ++ tr2 ++ tr3 ++ tr4 ++ trA)

/-! ### Repository switch guard (mainimpl.cpp) -/

/-- The state of the main controller that `MainImpl::setRepository`
touches: the busy guard flag and the user-visible repository state. -/
structure MainState where
  setRepositoryBusy : Bool
  curDir : String
  windowTitle : String
  statusMessage : String
  actionsEnabled : Bool
  tabsClosed : Bool
deriving Repr, DecidableEq, Inhabited

/-- The collaborators of one `setRepository` session: `Git::getBaseDir`
(resolved directory and whether the archive changed) and the outcome of
the blocking `Git::init` call — `Except.error` models the `exExiting`
exception unwinding the session. -/
structure MainEnv where
  baseDir : String → String × Bool
  initResult : Except Unit Bool

/-- `MainImpl::setRepository`: a second call while one session is in
flight returns immediately (guard flag); otherwise the session stops
pending work, clears the views, runs the blocking initialisation and
clears the guard flag on completion ("Not a git archive" is the only
user-facing message, for a failed initialisation). -/
def setRepository (st : MainState) (env : MainEnv) (newDir : String)
    (_refresh _keepSelection : Bool) : MainState :=
  if st.setRepositoryBusy then st
  else
    let st0 := {st with setRepositoryBusy := true}
    let bd := env.baseDir newDir
    let st1 := {st0 with curDir := bd.1,
                         windowTitle := bd.1 ++ " - QGit",
                         tabsClosed := st0.tabsClosed || bd.2,
                         actionsEnabled := false}
    match env.initResult with
    | Except.error _ => st1
    | Except.ok ok =>
      if ok then {st1 with actionsEnabled := true, setRepositoryBusy := false}
      else {st1 with statusMessage := "Not a git archive",
                     setRepositoryBusy := false}

/-- The number of file-cache entries resident under the fixed transient
pairwise-diff key. -/
def countCustom (m : List (String × RevFile)) : Nat :=
  (m.filter (fun p => p.1 == CUSTOM_SHA)).length

/-! ### Concrete fixtures for witness instantiations -/

/-- A revision record with the given parents and order index and no
derived-index data. -/
def mkRev (ps : List String) (idx : Nat) : Rev :=
  ⟨ps, idx, [], "", -1, -1, -1, [], [], []⟩

/-- An empty base state with error reporting enabled. -/
def baseSt : GitState :=
  ⟨[], [], [], [], true, [], [], "/w", "/w/.git", false, "", false⟩

/-- An oracle on which every command succeeds with empty output and
every write succeeds. -/
def constEnv : Env :=
  ⟨fun _ => some "", fun _ => true, "", "", false, false, false⟩

/-- An oracle on which every command and every write fails. -/
def failEnv : Env :=
  ⟨fun _ => none, fun _ => false, "", "", false, false, false⟩

/-- A two-revision store: root `aa` and its sole child `bb`. -/
def twoRevSt : GitState :=
  {baseSt with revs := [("aa", mkRev [] 1), ("bb", mkRev ["aa"] 0)],
               revOrder := ["bb", "aa"]}

/-- A 40-hex-style identifier. -/
def shaA : String := "aaaaaaaaaaaaaaaaaaaaaaaaaaaaaaaaaaaaaaaa"

/-- A second 40-hex-style identifier. -/
def shaB : String := "bbbbbbbbbbbbbbbbbbbbbbbbbbbbbbbbbbbbbbbb"

/-- A store with two full-length identifiers: root `shaA` and its sole
child `shaB`. -/
def parentSt : GitState :=
  {baseSt with revs := [(shaA, mkRev [] 1), (shaB, mkRev [shaA] 0)],
               revOrder := [shaB, shaA]}

/-- A reference record carrying one tag. -/
def refAw : Reference :=
  ⟨["v1"], [], [], [], "", "", "", ""⟩

/-- A reference record carrying one branch. -/
def refBw : Reference :=
  ⟨[], ["main"], [], [], "", "", "", ""⟩

/-- A reference index with one tagged and one branched identifier. -/
def refSt : GitState :=
  {baseSt with refsShaMap := [("Asha", refAw), ("Bsha", refBw)]}

/-- The parsed file set of a single rename record "old.txt --> new.txt". -/
def renameSampleFiles : RevFile :=
  parseDiffFormat "R\told.txt\tnew.txt"

def idleMainSt : MainState :=
  ⟨false, "", "", "", false, false⟩

def busyMainSt : MainState :=
  ⟨true, "", "", "", false, false⟩

def mainEnvW : MainEnv :=
  ⟨fun d => (d, false), Except.ok true⟩

end QGitx

namespace QGitx

/-! ### Claim theorems -/

/-- C10: for an identifier with no record in the Revision Store, or one
whose record has zero parents (a root commit), `getFiles` returns absent
immediately: no external tool invocation is issued and the state — in
particular the file cache — is unchanged. -/
theorem getFiles_rootOrUnknown_absent (st : GitState) (env : Env)
    (sha diffToSha path : String) (allFiles : Bool)
    (h : revLookup st sha = none ∨
         ∃ r, revLookup st sha = some r ∧ r.parents = []) :
    getFiles st env sha diffToSha allFiles path = (none, st, []) := by
  rcases h with h | ⟨r, h, hp⟩
  · simp [getFiles, h]
  · simp [getFiles, h, hp]

/-- Witness for C10: a concrete root commit. -/
theorem getFiles_rootOrUnknown_absent_witness :
    getFiles twoRevSt constEnv "aa" "bb" true "" = (none, twoRevSt, []) :=
  getFiles_rootOrUnknown_absent twoRevSt constEnv "aa" "bb" "" true
    (Or.inr ⟨mkRev [] 1, by decide, rfl⟩)

/-- C5: for an identifier not present in the Revision Store, `revLookup`
returns absent (never raises), and the derived index queries — children,
descendant branches, near tags in both directions, short log — return
empty results rather than errors. -/
theorem revStore_unknown_queries_empty (st : GitState) (sha : String)
    (h : List.lookup sha st.revs = none) :
    revLookup st sha = none ∧
    getChilds st sha = [] ∧
    (∀ shaOnly, getDescendantBranches st sha shaOnly = []) ∧
    (∀ goDown, getNearTags st goDown sha = []) ∧
    getShortLog st sha = "" := by
  have hrl : revLookup st sha = none := by
    unfold revLookup; split <;> simp [h]
  exact ⟨hrl, by simp [getChilds, hrl], by simp [getDescendantBranches, hrl],
         by simp [getNearTags, hrl], by simp [getShortLog, hrl]⟩

/-- Witness for C5: an identifier absent from a concrete store. -/
theorem revStore_unknown_queries_empty_witness :
    revLookup twoRevSt "cc" = none ∧
    getChilds twoRevSt "cc" = [] ∧
    (∀ shaOnly, getDescendantBranches twoRevSt "cc" shaOnly = []) ∧
    (∀ goDown, getNearTags twoRevSt goDown "cc" = []) ∧
    getShortLog twoRevSt "cc" = "" :=
  revStore_unknown_queries_empty twoRevSt "cc" (by decide)

/-- C2: `runDiffTreeWithRenameDetection` runs the command with rename
detection enabled (`-C` inserted) first; if and only if that attempt
fails it runs the plain command exactly once more and returns that
second result — a successful first attempt issues no second
invocation. -/
theorem runDiffTree_retryPolicy (st : GitState) (env : Env) (c : String) :
    (runDiffTreeWithRenameDetection st env c).2.2 =
      (if (env.runRes (qreplace c "git diff-tree" "git diff-tree -C")).isSome
       then [qreplace c "git diff-tree" "git diff-tree -C"]
       else [qreplace c "git diff-tree" "git diff-tree -C", c]) ∧
    (runDiffTreeWithRenameDetection st env c).1 =
      (if (env.runRes (qreplace c "git diff-tree" "git diff-tree -C")).isSome
       then env.runRes (qreplace c "git diff-tree" "git diff-tree -C")
       else env.runRes c) := by
  unfold runDiffTreeWithRenameDetection
  cases h : env.runRes (qreplace c "git diff-tree" "git diff-tree -C") <;> simp [h]

/-- C8: a `setRepository` call that finds the busy guard flag set
returns immediately with the controller state untouched (so no second
initialisation session can start, and no user-facing message is
emitted); when the guard was clear and the blocking initialisation
completes (rather than unwinding), the flag is cleared again. -/
theorem setRepository_busyGuard (st : MainState) (env : MainEnv)
    (newDir : String) (refresh keepSelection : Bool) :
    (st.setRepositoryBusy = true →
       setRepository st env newDir refresh keepSelection = st) ∧
    (st.setRepositoryBusy = false → ∀ ok, env.initResult = Except.ok ok →
       (setRepository st env newDir refresh keepSelection).setRepositoryBusy
         = false) := by
  constructor
  · intro h; simp [setRepository, h]
  · intro h ok hok
    cases hkind : env.initResult with
    | error e => rw [hok] at hkind; cases hkind
    | ok b =>
      rw [hok] at hkind
      cases hkind
      cases ok <;> simp [setRepository, h, hok]

/-- Witness for C8: a busy and an idle controller on a completing
session. -/
theorem setRepository_busyGuard_witness :
    (setRepository busyMainSt mainEnvW "/repo" false false = busyMainSt) ∧
    ((setRepository idleMainSt mainEnvW "/repo" false false).setRepositoryBusy
       = false) :=
  ⟨(setRepository_busyGuard busyMainSt mainEnvW "/repo" false false).1 rfl,
   (setRepository_busyGuard idleMainSt mainEnvW "/repo" false false).2 rfl
     true rfl⟩

/-- For a `TAG`-typed query only the tag arm of the match chain is
live. -/
theorem refNameMatches_tag (rf : Reference) (name : String) :
    refNameMatches rf name RefType.TAG = rf.tags.contains name := by
  cases hc : rf.tags.contains name <;>
    · simp only [refNameMatches]
      rw [hc]
      rfl

/-- For a `BRANCH`-typed query only the branch arm of the match chain is
live. -/
theorem refNameMatches_branch (rf : Reference) (name : String) :
    refNameMatches rf name RefType.BRANCH = rf.branches.contains name := by
  cases hc : rf.branches.contains name <;>
    · simp only [refNameMatches]
      rw [hc]
      rfl

/-- The scan of the reference index returns the key of the unique
matching entry. -/
theorem getRefShaFind_found (name : String) (ty : RefType) (A : String)
    (rfA : Reference) :
    ∀ l : List (String × Reference), (A, rfA) ∈ l →
      refNameMatches rfA name ty = true →
      (∀ p ∈ l, refNameMatches p.2 name ty = true → p.1 = A) →
      getRefShaFind name ty l = some A := by
  intro l
  induction l with
  | nil => intro h; cases h
  | cons hd tl ih =>
    intro hmem hmatch huniq
    obtain ⟨sha, rf⟩ := hd
    cases hm : refNameMatches rf name ty with
    | true =>
      have hs : sha = A := huniq (sha, rf) (List.mem_cons_self _ _) hm
      simp [getRefShaFind, hm, hs]
    | false =>
      have hmem' : (A, rfA) ∈ tl := by
        rcases List.mem_cons.mp hmem with heq | h
        · exfalso
          injection heq with h1 h2
          subst h1; subst h2
          rw [hmatch] at hm
          cases hm
        · exact h
      simp only [getRefShaFind, hm]
      simp only [Bool.false_eq_true, if_false]
      exact ih hmem' hmatch (fun p hp hq => huniq p (List.mem_cons_of_mem _ hp) hq)

/-- The scan of the reference index finds nothing when no entry
matches. -/
theorem getRefShaFind_none (name : String) (ty : RefType) :
    ∀ l : List (String × Reference),
      (∀ p ∈ l, refNameMatches p.2 name ty = false) →
      getRefShaFind name ty l = none := by
  intro l
  induction l with
  | nil => intro _; rfl
  | cons hd tl ih =>
    intro hall
    obtain ⟨sha, rf⟩ := hd
    have h0 : refNameMatches rf name ty = false :=
      hall (sha, rf) (List.mem_cons_self _ _)
    simp only [getRefShaFind, h0, Bool.false_eq_true, if_false]
    exact ih (fun p hp => hall p (List.mem_cons_of_mem _ hp))

/-- C3: in a reference index mapping tag `t` to identifier `A` and
branch `b` to identifier `B` (each name carried by no other entry),
`getRefSha` resolves `t` as a `TAG` to `A` and `b` as a `BRANCH` to `B`
regardless of `askGit`; for a name matching no entry it returns absent
without any invocation when `askGit` is false, and with `askGit` set it
issues exactly the abbreviated-form `git rev-parse --revs-only`
resolution and still returns absent if that fails — the oracle being a
function, the outcome is deterministic. -/
theorem getRefSha_resolution (st : GitState) (env : Env) (askGit : Bool)
    (t A : String) (rfA : Reference)
    (hA : (A, rfA) ∈ st.refsShaMap) (hAt : rfA.tags.contains t = true)
    (hAuniq : ∀ p ∈ st.refsShaMap, p.2.tags.contains t = true → p.1 = A)
    (b B : String) (rfB : Reference)
    (hB : (B, rfB) ∈ st.refsShaMap) (hBb : rfB.branches.contains b = true)
    (hBuniq : ∀ p ∈ st.refsShaMap, p.2.branches.contains b = true → p.1 = B) :
    (getRefSha st env t RefType.TAG askGit).1 = A ∧
    (getRefSha st env b RefType.BRANCH askGit).1 = B ∧
    (∀ name ty, (∀ p ∈ st.refsShaMap, refNameMatches p.2 name ty = false) →
       getRefSha st env name ty false = ("", st, []) ∧
       (getRefSha st env name ty true).2.2
         = ["git rev-parse --revs-only " ++ name] ∧
       (env.runRes ("git rev-parse --revs-only " ++ name) = none →
          (getRefSha st env name ty true).1 = "")) := by
  have hfA : getRefShaFind t RefType.TAG st.refsShaMap = some A := by
    apply getRefShaFind_found t RefType.TAG A rfA st.refsShaMap hA
    · rw [refNameMatches_tag]; exact hAt
    · intro p hp hq
      exact hAuniq p hp (by rw [refNameMatches_tag] at hq; exact hq)
  have hfB : getRefShaFind b RefType.BRANCH st.refsShaMap = some B := by
    apply getRefShaFind_found b RefType.BRANCH B rfB st.refsShaMap hB
    · rw [refNameMatches_branch]; exact hBb
    · intro p hp hq
      exact hBuniq p hp (by rw [refNameMatches_branch] at hq; exact hq)
  refine ⟨by simp [getRefSha, hfA], by simp [getRefSha, hfB], ?_⟩
  intro name ty hnone
  have hf : getRefShaFind name ty st.refsShaMap = none :=
    getRefShaFind_none name ty st.refsShaMap hnone
  refine ⟨by simp [getRefSha, hf], ?_, ?_⟩
  · rcases h : env.runRes ("git rev-parse --revs-only " ++ name) with _ | out <;>
      simp [getRefSha, hf, h]
  · intro hrun
    simp [getRefSha, hf, hrun]

/-- Witness for C3 on a concrete two-entry reference index. -/
theorem getRefSha_resolution_witness :
    (getRefSha refSt failEnv "v1" RefType.TAG false).1 = "Asha" ∧
    (getRefSha refSt failEnv "main" RefType.BRANCH false).1 = "Bsha" ∧
    (getRefSha refSt failEnv "nope" RefType.ANY_REF false = ("", refSt, []) ∧
     (getRefSha refSt failEnv "nope" RefType.ANY_REF true).2.2
       = ["git rev-parse --revs-only " ++ "nope"] ∧
     (getRefSha refSt failEnv "nope" RefType.ANY_REF true).1 = "") := by
  have m := getRefSha_resolution refSt failEnv false "v1" "Asha" refAw
    (by decide) (by decide) (by decide) "main" "Bsha" refBw
    (by decide) (by decide) (by decide)
  have a := m.2.2 "nope" RefType.ANY_REF (by decide)
  exact ⟨m.1, m.2.1, a.1, a.2.1, a.2.2 rfl⟩

/-- The state returned by the retrying diff-tree runner: only the
error-reporting flag is touched. -/
theorem runDiffTree_state (st : GitState) (env : Env) (c : String) :
    (runDiffTreeWithRenameDetection st env c).2.1
      = {st with errorReportingEnabled := true} := by
  cases h : env.runRes (qreplace c "git diff-tree" "git diff-tree -C") <;>
    simp [runDiffTreeWithRenameDetection, h]

/-- The retrying diff-tree runner never touches the file cache. -/
theorem runDiffTree_revsFiles (st : GitState) (env : Env) (c : String)
    {res : Option String} {st1 : GitState} {tr : List String}
    (h : runDiffTreeWithRenameDetection st env c = (res, st1, tr)) :
    st1.revsFiles = st.revsFiles := by
  have hst := runDiffTree_state st env c
  rw [h] at hst
  have h2 : st1 = {st with errorReportingEnabled := true} := hst
  rw [h2]

/-- Replacing insertion: the inserted key now maps to the inserted
value. -/
theorem lookup_qinsert_self (m : List (String × RevFile)) (k : String)
    (v : RevFile) : List.lookup k (qinsert m k v) = some v := by
  simp [qinsert, List.lookup]

/-- Filtering away one key leaves lookups of other keys unchanged. -/
theorem lookup_filter_ne (k k2 : String) (h : k2 ≠ k) :
    ∀ m : List (String × RevFile),
      List.lookup k2 (List.filter (fun p => p.1 != k) m) = List.lookup k2 m := by
  intro m
  induction m with
  | nil => rfl
  | cons hd tl ih =>
    obtain ⟨a, b⟩ := hd
    by_cases ha : a = k
    · subst ha
      have hk2 : (k2 == a) = false := by simp [h]
      simp [List.filter_cons, List.lookup, hk2, ih]
    · have hne : ((a, b).1 != k) = true := by simp [ha]
      by_cases h2 : k2 = a
      · subst h2
        simp [List.filter_cons, hne, List.lookup]
      · have hk2 : (k2 == a) = false := by simp [h2]
        simp [List.filter_cons, hne, List.lookup, hk2, ih]

/-- Replacing insertion: lookups of other keys are unchanged. -/
theorem lookup_qinsert_ne (m : List (String × RevFile)) (k k2 : String)
    (v : RevFile) (h : k2 ≠ k) :
    List.lookup k2 (qinsert m k v) = List.lookup k2 m := by
  have hk2 : (k2 == k) = false := by simp [h]
  simp [qinsert, List.lookup, hk2]
  exact lookup_filter_ne k k2 h m

/-- Replacing insertion preserves the at-most-one bound on transient-key
residency, whatever the inserted key is. -/
theorem countCustom_qinsert (m : List (String × RevFile)) (k : String)
    (v : RevFile) (h : countCustom m ≤ 1) :
    countCustom (qinsert m k v) ≤ 1 := by
  by_cases hk : k = CUSTOM_SHA
  · have hnil : List.filter (fun p => p.1 == CUSTOM_SHA)
        (List.filter (fun p => p.1 != k) m) = [] := by
      rw [List.filter_eq_nil_iff]
      intro a ha
      have h2 := List.of_mem_filter ha
      simp only [bne_iff_ne, ne_eq] at h2
      rw [hk] at h2
      simp [h2]
    have hkt : ((k, v).1 == CUSTOM_SHA) = true := by simp [hk]
    simp [countCustom, qinsert, List.filter_cons, hkt, hnil]
  · have hkf : ((k, v).1 == CUSTOM_SHA) = false := by simp [hk]
    have hsub : List.Sublist
        (List.filter (fun p => p.1 == CUSTOM_SHA)
          (List.filter (fun p => p.1 != k) m))
        (List.filter (fun p => p.1 == CUSTOM_SHA) m) :=
      List.Sublist.filter _ (List.filter_sublist m)
    calc countCustom (qinsert m k v)
        = (List.filter (fun p => p.1 == CUSTOM_SHA)
            (List.filter (fun p => p.1 != k) m)).length := by
          simp [countCustom, qinsert, List.filter_cons, hkf]
      _ ≤ (List.filter (fun p => p.1 == CUSTOM_SHA) m).length :=
          hsub.length_le
      _ ≤ 1 := h

/-- A successful arbitrary-pair request stores exactly its parsed result
under the transient key, as a replacing insertion. -/
theorem getFilesPair_spec (st : GitState) (env : Env) (sha d p : String)
    {rf : RevFile} {st1 : GitState} {tr : List String}
    (h : getFilesPair st env sha d p = (some rf, st1, tr)) :
    st1.revsFiles = qinsert st.revsFiles CUSTOM_SHA rf := by
  rw [getFilesPair] at h
  rcases hr : runDiffTreeWithRenameDetection st env
      ("git diff-tree --no-color -r -m " ++ d ++ " " ++ sha
        ++ (if p != "" then " " ++ p else "")) with ⟨res, stx, trx⟩
  have hx : stx.revsFiles = st.revsFiles := runDiffTree_revsFiles st env _ hr
  rw [hr] at h
  rcases res with _ | out
  · simp at h
  · simp only [insertNewFiles, Prod.mk.injEq, Option.some.injEq] at h
    obtain ⟨h1, h2, h3⟩ := h
    rw [← h2, ← h1]
    simp [hx]

/-- The file cache after the arbitrary-pair branch is either untouched
or a single replacing insertion. -/
theorem getFilesPair_shape (st : GitState) (env : Env) (sha d p : String) :
    (getFilesPair st env sha d p).2.1.revsFiles = st.revsFiles ∨
    ∃ k v, (getFilesPair st env sha d p).2.1.revsFiles
             = qinsert st.revsFiles k v := by
  rw [getFilesPair]
  rcases hr : runDiffTreeWithRenameDetection st env
      ("git diff-tree --no-color -r -m " ++ d ++ " " ++ sha
        ++ (if p != "" then " " ++ p else "")) with ⟨res, stx, trx⟩
  have hx : stx.revsFiles = st.revsFiles := runDiffTree_revsFiles st env _ hr
  rcases res with _ | out
  · left; exact hx
  · right
    exact ⟨CUSTOM_SHA, parseDiffFormat out, by simp [insertNewFiles, hx]⟩

/-- The file cache after the single-commit branch is either untouched or
a single replacing insertion. -/
theorem getFilesPlain_shape (st : GitState) (env : Env) (sha : String) :
    (getFilesPlain st env sha).2.1.revsFiles = st.revsFiles ∨
    ∃ k v, (getFilesPlain st env sha).2.1.revsFiles
             = qinsert st.revsFiles k v := by
  rw [getFilesPlain]
  rcases hl : List.lookup sha st.revsFiles with _ | rf
  · simp only []
    by_cases hzs : (sha == ZERO_SHA) = true
    · rw [if_pos hzs]; left; rfl
    · rw [if_neg hzs]
      rcases hr : runDiffTreeWithRenameDetection st env
          ("git diff-tree --no-color -r -c " ++ sha) with ⟨res, stx, trx⟩
      have hx : stx.revsFiles = st.revsFiles := runDiffTree_revsFiles st env _ hr
      rcases res with _ | out
      · left; exact hx
      · simp only []
        rcases hl2 : List.lookup sha stx.revsFiles with _ | rf2
        · simp only []
          right
          exact ⟨sha, parseDiffFormat out, by simp [insertNewFiles, hx]⟩
        · simp only []
          left; exact hx
  · left; rfl

/-- The file cache after `getAllMergeFiles` is either untouched or a
single replacing insertion into the original cache. -/
theorem getAllMergeFiles_revsFiles_shape (st : GitState) (env : Env)
    (sha : String) :
    (getAllMergeFiles st env sha).2.1.revsFiles = st.revsFiles ∨
    ∃ k v, (getAllMergeFiles st env sha).2.1.revsFiles
             = qinsert st.revsFiles k v := by
  rw [getAllMergeFiles]
  rcases hl : List.lookup (ALL_MERGE_FILES ++ sha) st.revsFiles with _ | rf
  · rcases hr : runDiffTreeWithRenameDetection st env
        ("git diff-tree --no-color -r -m " ++ sha) with ⟨res, stx, trx⟩
    have hx : stx.revsFiles = st.revsFiles := runDiffTree_revsFiles st env _ hr
    rcases res with _ | out
    · left; exact hx
    · right
      exact ⟨ALL_MERGE_FILES ++ sha, parseDiffFormat out, by
        simp [insertNewFiles, hx]⟩
  · left; rfl

/-- The file cache after any `getFiles` request is either untouched or a
single replacing insertion into the original cache. -/
theorem getFiles_revsFiles_shape (st : GitState) (env : Env)
    (sha d p : String) (af : Bool) :
    (getFiles st env sha d af p).2.1.revsFiles = st.revsFiles ∨
    ∃ k v, (getFiles st env sha d af p).2.1.revsFiles
             = qinsert st.revsFiles k v := by
  rw [getFiles]
  rcases hrl : revLookup st sha with _ | r
  · left; rfl
  · simp only []
    by_cases h0 : (r.parents.length == 0) = true
    · rw [if_pos h0]; left; rfl
    · rw [if_neg h0]
      by_cases hm : (decide (r.parents.length > 1) && d == "" && af) = true
      · rw [if_pos hm]
        exact getAllMergeFiles_revsFiles_shape st env sha
      · rw [if_neg hm]
        by_cases hp : (d != "" && sha != ZERO_SHA) = true
        · rw [if_pos hp]
          exact getFilesPair_shape st env sha d p
        · rw [if_neg hp]
          exact getFilesPlain_shape st env sha

/-- C4: a `getFiles` request with a non-empty diff target (and source
not the working-directory sentinel) that produces a result stores it in
the file cache under the single fixed transient key, replacing the
previous occupant of that key and leaving every other key's entry
untouched; and every `getFiles` request, of any shape, preserves the
invariant that at most one arbitrary-pair diff result is resident. -/
theorem getFiles_transientKey (st : GitState) (env : Env)
    (sha diffToSha path : String) (allFiles : Bool)
    (hd : diffToSha ≠ "") (hz : sha ≠ ZERO_SHA)
    (hbound : countCustom st.revsFiles ≤ 1) :
    (∀ rf st1 tr,
       getFiles st env sha diffToSha allFiles path = (some rf, st1, tr) →
       List.lookup CUSTOM_SHA st1.revsFiles = some rf ∧
       ∀ k, k ≠ CUSTOM_SHA →
         List.lookup k st1.revsFiles = List.lookup k st.revsFiles) ∧
    (∀ sha2 d af p2,
       countCustom (getFiles st env sha2 d af p2).2.1.revsFiles ≤ 1) := by
  have hdb : (diffToSha == "") = false := by simp [hd]
  have hdb2 : (diffToSha != "") = true := by simp [hd]
  have hzb : (sha != ZERO_SHA) = true := by simp [hz]
  constructor
  · intro rf st1 tr heq
    rw [getFiles] at heq
    rcases hrl : revLookup st sha with _ | r
    · rw [hrl] at heq
      simp only [] at heq
      exact absurd heq (by simp)
    · rw [hrl] at heq
      simp only [] at heq
      by_cases h0 : (r.parents.length == 0) = true
      · rw [if_pos h0] at heq
        exact absurd heq (by simp)
      · have hm : ¬((decide (r.parents.length > 1) && diffToSha == ""
            && allFiles) = true) := by rw [hdb]; simp
        have hp : (diffToSha != "" && sha != ZERO_SHA) = true := by
          rw [hdb2, hzb]; rfl
        rw [if_neg h0, if_neg hm, if_pos hp] at heq
        have hspec := getFilesPair_spec st env sha diffToSha path heq
        rw [hspec]
        exact ⟨lookup_qinsert_self _ _ _,
               fun k hk => lookup_qinsert_ne _ _ _ _ hk⟩
  · intro sha2 d af p2
    rcases getFiles_revsFiles_shape st env sha2 d p2 af with hsh | ⟨k, v, hsh⟩
    · rw [hsh]; exact hbound
    · rw [hsh]; exact countCustom_qinsert _ _ _ hbound

/-- Witness for C4: a concrete pairwise request on a two-revision
store. -/
theorem getFiles_transientKey_witness :
    List.lookup CUSTOM_SHA
      (getFiles twoRevSt constEnv "bb" "aa" false "").2.1.revsFiles
      = some (RevFile.mk []) ∧
    countCustom (getFiles twoRevSt constEnv "bb" "" true "").2.1.revsFiles
      ≤ 1 := by
  have m := getFiles_transientKey twoRevSt constEnv "bb" "aa" "" false
    (by decide) (by decide) (by decide)
  exact ⟨(m.1 (RevFile.mk [])
            (getFiles twoRevSt constEnv "bb" "aa" false "").2.1
            (getFiles twoRevSt constEnv "bb" "aa" false "").2.2
            (by decide)).1,
         m.2 "bb" "" true ""⟩

/-- Counterexample for C6: in the file set parsed from one rename record
"old.txt --> new.txt", looking up the old name and the new name with
`findFileIndex` yields two different entry indices (the destination
entry and the simulated origin entry), not the same one. -/
theorem findFileIndex_rename_counterexample :
    ¬ (findFileIndex renameSampleFiles "old.txt"
         = findFileIndex renameSampleFiles "new.txt") := by decide

/-- C6 (amended): for the file set parsed from the rename record
"old.txt --> new.txt", `findFileIndex` resolves the new name to the
destination entry (index 0) and the old name to the origin entry
(index 1) — two distinct valid entries that carry the same extended
status arrow — and `removeExtraFileInfo` on the formatted name recovers
the destination-only name. -/
theorem findFileIndex_rename_amended :
    findFileIndex renameSampleFiles "new.txt" = 0 ∧
    findFileIndex renameSampleFiles "old.txt" = 1 ∧
    extendedStatus renameSampleFiles 0 = "old.txt --> new.txt" ∧
    extendedStatus renameSampleFiles 1 = "old.txt --> new.txt" ∧
    removeExtraFileInfo "old.txt --> new.txt" = "new.txt" := by decide

/-- The retrying diff-tree runner always leaves error reporting
enabled. -/
theorem runDiffTree_er (st : GitState) (env : Env) (c : String)
    {res : Option String} {st1 : GitState} {tr : List String}
    (h : runDiffTreeWithRenameDetection st env c = (res, st1, tr)) :
    st1.errorReportingEnabled = true := by
  have hst := runDiffTree_state st env c
  rw [h] at hst
  have h2 : st1 = {st with errorReportingEnabled := true} := hst
  rw [h2]

/-- The arbitrary-pair branch always leaves error reporting enabled. -/
theorem getFilesPair_er (st : GitState) (env : Env) (sha d p : String) :
    (getFilesPair st env sha d p).2.1.errorReportingEnabled = true := by
  rw [getFilesPair]
  rcases hr : runDiffTreeWithRenameDetection st env
      ("git diff-tree --no-color -r -m " ++ d ++ " " ++ sha
        ++ (if p != "" then " " ++ p else "")) with ⟨res, stx, trx⟩
  have hx := runDiffTree_er st env _ hr
  rcases res with _ | out <;> exact hx

/-- The single-commit branch restores error reporting. -/
theorem getFilesPlain_er (st : GitState) (env : Env) (sha : String)
    (h : st.errorReportingEnabled = true) :
    (getFilesPlain st env sha).2.1.errorReportingEnabled = true := by
  rw [getFilesPlain]
  rcases hl : List.lookup sha st.revsFiles with _ | rf
  · simp only []
    by_cases hzs : (sha == ZERO_SHA) = true
    · rw [if_pos hzs]; exact h
    · rw [if_neg hzs]
      rcases hr : runDiffTreeWithRenameDetection st env
          ("git diff-tree --no-color -r -c " ++ sha) with ⟨res, stx, trx⟩
      have hx := runDiffTree_er st env _ hr
      rcases res with _ | out
      · exact hx
      · simp only []
        rcases hl2 : List.lookup sha stx.revsFiles with _ | rf2 <;>
          · simp only []
            exact hx
  · exact h

/-- The combined merge-diff branch restores error reporting. -/
theorem getAllMergeFiles_er (st : GitState) (env : Env) (sha : String)
    (h : st.errorReportingEnabled = true) :
    (getAllMergeFiles st env sha).2.1.errorReportingEnabled = true := by
  rw [getAllMergeFiles]
  rcases hl : List.lookup (ALL_MERGE_FILES ++ sha) st.revsFiles with _ | rf
  · rcases hr : runDiffTreeWithRenameDetection st env
        ("git diff-tree --no-color -r -m " ++ sha) with ⟨res, stx, trx⟩
    have hx := runDiffTree_er st env _ hr
    rcases res with _ | out <;> exact hx
  · exact h

/-- Every `getFiles` request restores error reporting. -/
theorem getFiles_er (st : GitState) (env : Env) (sha d : String)
    (af : Bool) (p : String) (h : st.errorReportingEnabled = true) :
    (getFiles st env sha d af p).2.1.errorReportingEnabled = true := by
  rw [getFiles]
  rcases hrl : revLookup st sha with _ | r
  · exact h
  · simp only []
    by_cases h0 : (r.parents.length == 0) = true
    · rw [if_pos h0]; exact h
    · rw [if_neg h0]
      by_cases hm : (decide (r.parents.length > 1) && d == "" && af) = true
      · rw [if_pos hm]; exact getAllMergeFiles_er st env sha h
      · rw [if_neg hm]
        by_cases hp : (d != "" && sha != ZERO_SHA) = true
        · rw [if_pos hp]; exact getFilesPair_er st env sha d p
        · rw [if_neg hp]; exact getFilesPlain_er st env sha h

/-- `getOtherFiles` restores error reporting. -/
theorem getOtherFiles_er (st : GitState) (env : Env)
    (sel : List String) (oii : Bool) (h : st.errorReportingEnabled = true) :
    (getOtherFiles st env sel oii).2.1.errorReportingEnabled = true := by
  rw [getOtherFiles]
  rcases hg : getFiles st env ZERO_SHA "" false "" with ⟨fo, st1, tr1⟩
  have h1 : st1.errorReportingEnabled = true := by
    have := getFiles_er st env ZERO_SHA "" false "" h
    rw [hg] at this
    exact this
  rcases fo with _ | files <;> exact h1

/-- The `git add` step does not touch error reporting. -/
theorem updateIndexAddStep_er (st : GitState) (env : Env)
    (toAdd : List String) (h : st.errorReportingEnabled = true) :
    (updateIndexAddStep st env toAdd).2.1.errorReportingEnabled = true := by
  rw [updateIndexAddStep]
  split
  · exact h
  · split <;> exact h

/-- `updateIndex` restores error reporting. -/
theorem updateIndex_er (st : GitState) (env : Env) (sel : List String)
    (h : st.errorReportingEnabled = true) :
    (updateIndex st env sel).2.1.errorReportingEnabled = true := by
  rw [updateIndex]
  rcases hg : getFiles st env ZERO_SHA "" false "" with ⟨fo, st1, tr1⟩
  have h1 : st1.errorReportingEnabled = true := by
    have := getFiles_er st env ZERO_SHA "" false "" h
    rw [hg] at this
    exact this
  simp only []
  split
  · split
    · exact h1
    · exact updateIndexAddStep_er st1 env _ h1
  · exact updateIndexAddStep_er st1 env _ h1

/-- `writeToFile` does not touch error reporting. -/
theorem writeToFile_er (st : GitState) (env : Env) (p c : String) :
    (writeToFile st env p c).2.errorReportingEnabled
      = st.errorReportingEnabled := by
  rw [writeToFile]
  split <;> rfl

/-- `mkPatchFromWorkDir` restores error reporting. -/
theorem mkPatchFromWorkDir_er (st : GitState) (env : Env)
    (msg pf : String) (files : List String)
    (h : st.errorReportingEnabled = true) :
    (mkPatchFromWorkDir st env msg pf files).2.1.errorReportingEnabled
      = true := by
  rw [mkPatchFromWorkDir]
  rcases hu : updateIndex st env files with ⟨uok, st1, tr1⟩
  have h1 : st1.errorReportingEnabled = true := by
    have := updateIndex_er st env files h
    rw [hu] at this
    exact this
  rcases uok
  · exact h1
  · simp only []
    rcases env.runRes ("git diff -C HEAD -- " ++ quoteList files) with _ | out
    · exact h1
    · simp only []
      rcases hw : writeToFile st1 env pf _ with ⟨wok, st2⟩
      have h2 := writeToFile_er st1 env pf ("Subject: " ++ msg ++ "\n---\n" ++ out)
      rw [hw] at h2
      exact h2.trans h1

/-- The `fail_and_unstash` block restores error reporting. -/
theorem stgFailAndUnstash_er (st : GitState) (env : Env) (part : Bool)
    (h : st.errorReportingEnabled = true) :
    (stgFailAndUnstash st env part).1.errorReportingEnabled = true := by
  rw [stgFailAndUnstash]
  split
  · rfl
  · exact h

/-- The stash step restores error reporting. -/
theorem stgStashStep_er (st : GitState) (part : Bool)
    (h : st.errorReportingEnabled = true) :
    (stgStashStep st part).1.errorReportingEnabled = true := by
  rw [stgStashStep]
  split
  · rfl
  · exact h

/-- `stgCommit` restores error reporting on every path. -/
theorem stgCommit_er (st : GitState) (env : Env) (sel : List String)
    (msg pn : String) (fold : Bool) (h : st.errorReportingEnabled = true) :
    (stgCommit st env sel msg pn fold).2.1.errorReportingEnabled = true := by
  rw [stgCommit]
  simp only []
  rcases h1 : getOtherFiles st env sel (!env.optOnlyInIndex)
    with ⟨other1, st1, tr1⟩
  have e1 : st1.errorReportingEnabled = true := by
    have := getOtherFiles_er st env sel (!env.optOnlyInIndex) h
    rw [h1] at this
    exact this
  simp only []
  rcases h2 : (if (!other1.isEmpty) = true
      then getOtherFiles st1 env sel env.optOnlyInIndex
      else ([], st1, [])) with ⟨notSel, st2, tr2⟩
  have e2 : st2.errorReportingEnabled = true := by
    by_cases hc : (!other1.isEmpty) = true
    · rw [if_pos hc] at h2
      have := getOtherFiles_er st1 env sel env.optOnlyInIndex e1
      rw [h2] at this
      exact this
    · rw [if_neg hc] at h2
      have hst : st1 = st2 := congrArg (fun q => q.2.1) h2
      rw [← hst]
      exact e1
  rcases h3 : mkPatchFromWorkDir st2 env msg
      (st.gitDir ++ "/qgit_tmp_patch.txt") sel with ⟨mok, st3, tr3⟩
  have e3 : st3.errorReportingEnabled = true := by
    have := mkPatchFromWorkDir_er st2 env msg
      (st.gitDir ++ "/qgit_tmp_patch.txt") sel e2
    rw [h3] at this
    exact this
  rcases mok
  · exact e3
  · simp only []
    rcases h4 : stgStashStep st3 (!other1.isEmpty) with ⟨st4, tr4⟩
    have e4 : st4.errorReportingEnabled = true := by
      have := stgStashStep_er st3 (!other1.isEmpty) e3
      rw [h4] at this
      exact this
    rcases h5 : runSeq env (stgApplyCmds msg pn
        (st.gitDir ++ "/qgit_tmp_patch.txt") fold) with ⟨sok, trA⟩
    rcases sok
    · simp only []
      rcases h6 : stgFailAndUnstash st4 env (!other1.isEmpty) with ⟨st5, tr5⟩
      have e5 : st5.errorReportingEnabled = true := by
        have := stgFailAndUnstash_er st4 env (!other1.isEmpty) e4
        rw [h6] at this
        exact this
      exact e5
    · simp only []
      by_cases hps : (!other1.isEmpty) = true
      · rw [if_pos hps]
        by_cases hns : (!notSel.isEmpty) = true
        · rw [if_pos hns]
          rcases h7 : updateIndex {st4 with errorReportingEnabled := true}
              env notSel with ⟨ok6, st6, tr6⟩
          have e6 : st6.errorReportingEnabled = true := by
            have := updateIndex_er {st4 with errorReportingEnabled := true}
              env notSel rfl
            rw [h7] at this
            exact this
          exact e6
        · rw [if_neg hns]; rfl
      · rw [if_neg hps]; exact e4

/-- C7: after every operation that temporarily disables error reporting
around a may-legitimately-fail probe — the environment/version probe,
the configuration reads, the abbreviated-ref resolution, the
rename-detection first attempt, and the stash calls of the patch-stack
commit — the error-reporting flag is enabled again on every return
path, so suppression is scoped to the single call. -/
theorem errorReporting_restored (st : GitState) (env : Env)
    (h : st.errorReportingEnabled = true) :
    (checkEnvironment st env).1.errorReportingEnabled = true ∧
    (userInfo st env).2.1.errorReportingEnabled = true ∧
    (∀ name ty askGit,
       (getRefSha st env name ty askGit).2.1.errorReportingEnabled = true) ∧
    (∀ c, (runDiffTreeWithRenameDetection st env c).2.1.errorReportingEnabled
            = true) ∧
    (∀ selFiles msg patchName fold,
       (stgCommit st env selFiles msg patchName fold).2.1.errorReportingEnabled
         = true) := by
  refine ⟨?_, ?_, ?_, ?_, ?_⟩
  · rw [checkEnvironment]
    rcases env.runRes "git --version" with _ | v
    · exact h
    · simp only []
      rcases env.runRes "source-highlight -V" with _ | v2 <;> rfl
  · rfl
  · intro name ty askGit
    rw [getRefSha]
    rcases getRefShaFind name ty st.refsShaMap with _ | sha2
    · simp only []
      by_cases hag : (!askGit) = true
      · rw [if_pos hag]; exact h
      · rw [if_neg hag]
        rcases env.runRes ("git rev-parse --revs-only " ++ name) with _ | out <;>
          rfl
    · exact h
  · intro c
    rcases hr : runDiffTreeWithRenameDetection st env c with ⟨res, st1, tr⟩
    exact runDiffTree_er st env c hr
  · intro selFiles msg patchName fold
    exact stgCommit_er st env selFiles msg patchName fold h

/-- Witness for C7 at a concrete state and oracle. -/
theorem errorReporting_restored_witness :
    (checkEnvironment baseSt constEnv).1.errorReportingEnabled = true ∧
    (userInfo baseSt constEnv).2.1.errorReportingEnabled = true ∧
    (getRefSha baseSt constEnv "v1" RefType.TAG true).2.1.errorReportingEnabled
      = true ∧
    (runDiffTreeWithRenameDetection baseSt constEnv
       "git diff-tree --no-color -r -c aa").2.1.errorReportingEnabled = true ∧
    (stgCommit baseSt constEnv ["f.txt"] "m" "p" false).2.1.errorReportingEnabled
      = true := by
  have m := errorReporting_restored baseSt constEnv rfl
  exact ⟨m.1, m.2.1, m.2.2.1 "v1" RefType.TAG true,
         m.2.2.2.1 "git diff-tree --no-color -r -c aa",
         m.2.2.2.2 ["f.txt"] "m" "p" false⟩

/-- `writeToFile` either succeeds and creates the file or fails and
leaves the state untouched. -/
theorem writeToFile_cases (st : GitState) (env : Env) (p c : String) :
    writeToFile st env p c = (true, {st with fs := p :: st.fs}) ∨
    writeToFile st env p c = (false, st) := by
  rw [writeToFile]
  split
  · left; rfl
  · right; rfl

/-- After `QDir::remove`, the removed path is gone. -/
theorem notMem_dirRemove (st : GitState) (x : String) :
    ¬ x ∈ (dirRemove st x).fs := by
  simp [dirRemove, List.mem_filter]

/-- Every return path of `commitFiles` that was reached after the
commit-message file was written removes it again; on the only path that
skips the removal the file was never created. -/
theorem commitFiles_msgRemoved (st : GitState) (env : Env)
    (sel : List String) (msg : String) (amend : Bool)
    (h : ¬ (st.gitDir ++ "/qgit_cmt_msg.txt") ∈ st.fs) :
    ¬ (st.gitDir ++ "/qgit_cmt_msg.txt")
        ∈ (commitFiles st env sel msg amend).2.1.fs := by
  rw [commitFiles]
  simp only []
  rcases hw : writeToFile st env (st.gitDir ++ "/qgit_cmt_msg.txt") msg
    with ⟨wok, st0⟩
  rcases wok
  · simp only []
    have hst : st0 = st := by
      rcases writeToFile_cases st env (st.gitDir ++ "/qgit_cmt_msg.txt") msg
        with hc | hc
      · rw [hw] at hc
        exact absurd (congrArg Prod.fst hc) (by simp)
      · rw [hw] at hc
        exact congrArg Prod.snd hc
    rw [hst]
    exact h
  · simp only []
    rcases hg : getOtherFiles st0 env sel env.optOnlyInIndex
      with ⟨notSel, st1, tr1⟩
    rcases hrs : commitResetStep st1 env notSel with ⟨rok, st2, tr2⟩
    rcases rok
    · simp only []
      exact notMem_dirRemove _ _
    · simp only []
      rcases hu : updateIndex st2 env sel with ⟨uok, st3, tr3⟩
      rcases uok
      · simp only []
        exact notMem_dirRemove _ _
      · simp only []
        rcases env.runRes ("git commit" ++ cmtOptionsOf env amend
            ++ " -F " ++ quote (st.gitDir ++ "/qgit_cmt_msg.txt")) with _ | out
        · simp only []
          exact notMem_dirRemove _ _
        · simp only []
          by_cases hns : (!notSel.isEmpty) = true
          · rw [if_pos hns]
            rcases hu2 : updateIndex st3 env notSel with ⟨ok2, st4, tr4⟩
            simp only []
            exact notMem_dirRemove _ _
          · rw [if_neg hns]
            exact notMem_dirRemove _ _

/-- Every return path of `stgCommit` removes the transient patch file
before returning. -/
theorem stgCommit_patchRemoved (st : GitState) (env : Env)
    (sel : List String) (msg pn : String) (fold : Bool) :
    ¬ (st.gitDir ++ "/qgit_tmp_patch.txt")
        ∈ (stgCommit st env sel msg pn fold).2.1.fs := by
  rw [stgCommit]
  simp only []
  rcases h1 : getOtherFiles st env sel (!env.optOnlyInIndex)
    with ⟨other1, st1, tr1⟩
  simp only []
  rcases h2 : (if (!other1.isEmpty) = true
      then getOtherFiles st1 env sel env.optOnlyInIndex
      else ([], st1, [])) with ⟨notSel, st2, tr2⟩
  rcases h3 : mkPatchFromWorkDir st2 env msg
      (st.gitDir ++ "/qgit_tmp_patch.txt") sel with ⟨mok, st3, tr3⟩
  rcases mok
  · simp only []
    exact notMem_dirRemove _ _
  · simp only []
    rcases h4 : stgStashStep st3 (!other1.isEmpty) with ⟨st4, tr4⟩
    rcases h5 : runSeq env (stgApplyCmds msg pn
        (st.gitDir ++ "/qgit_tmp_patch.txt") fold) with ⟨sok, trA⟩
    rcases sok
    · simp only []
      rcases h6 : stgFailAndUnstash st4 env (!other1.isEmpty) with ⟨st5, tr5⟩
      simp only []
      exact notMem_dirRemove _ _
    · simp only []
      by_cases hps : (!other1.isEmpty) = true
      · rw [if_pos hps]
        by_cases hns : (!notSel.isEmpty) = true
        · rw [if_pos hns]
          rcases h7 : updateIndex {st4 with errorReportingEnabled := true}
              env notSel with ⟨ok6, st6, tr6⟩
          simp only []
          exact notMem_dirRemove _ _
        · rw [if_neg hns]
          exact notMem_dirRemove _ _
      · rw [if_neg hps]
        exact notMem_dirRemove _ _

/-- C9: the transient files written to pass a multi-line message or
patch to a subprocess — the commit-message file of `commitFiles` and the
patch file of `stgCommit` — are absent again when the operation returns,
on every return path reached after the file was written, whether the
operation succeeds or fails. -/
theorem tempFiles_removed (st : GitState) (env : Env)
    (selFiles : List String) (msg patchName : String) (amend fold : Bool)
    (h : ¬ (st.gitDir ++ "/qgit_cmt_msg.txt") ∈ st.fs) :
    (¬ (st.gitDir ++ "/qgit_cmt_msg.txt")
        ∈ (commitFiles st env selFiles msg amend).2.1.fs) ∧
    (¬ (st.gitDir ++ "/qgit_tmp_patch.txt")
        ∈ (stgCommit st env selFiles msg patchName fold).2.1.fs) :=
  ⟨commitFiles_msgRemoved st env selFiles msg amend h,
   stgCommit_patchRemoved st env selFiles msg patchName fold⟩

/-- Witness for C9 at a concrete state and oracle. -/
theorem tempFiles_removed_witness :
    (¬ (baseSt.gitDir ++ "/qgit_cmt_msg.txt")
        ∈ (commitFiles baseSt constEnv ["f.txt"] "m" false).2.1.fs) ∧
    (¬ (baseSt.gitDir ++ "/qgit_tmp_patch.txt")
        ∈ (stgCommit baseSt constEnv ["f.txt"] "m" "p" false).2.1.fs) :=
  tempFiles_removed baseSt constEnv ["f.txt"] "m" "p" false false (by decide)

/-- Projections of lists differing at a common position are different,
whatever is appended after them. -/
theorem ne_append_of_get_ne (p q s t : List Char) (n : Nat)
    (hp : n < p.length) (hq : n < q.length)
    (h : p.get ⟨n, hp⟩ ≠ q.get ⟨n, hq⟩) : p ++ s ≠ q ++ t := by
  intro he
  have h1 : (p ++ s)[n]? = p[n]? := List.getElem?_append_left hp
  have h2 : (q ++ t)[n]? = q[n]? := List.getElem?_append_left hq
  rw [he, h2] at h1
  rw [List.getElem?_eq_getElem hq, List.getElem?_eq_getElem hp] at h1
  apply h
  have h3 : q[n] = p[n] := by
    injection h1
  rw [List.get_eq_getElem, List.get_eq_getElem, h3]

/-- Decomposition of the pairwise diff-tree command around its fixed
prefix. -/
theorem pairCmd_data (X Y : String) :
    ("git diff-tree --no-color -r " ++ X ++ " " ++ Y).data
      = "git diff-tree --no-color -r ".data ++ (X.data ++ (' ' :: Y.data)) := by
  rw [String.data_append, String.data_append, String.data_append]
  rw [List.append_assoc, List.append_assoc]
  rfl

/-- Decomposition of the single-commit diff-tree command around the same
fixed prefix. -/
theorem plainCmd_data (Y : String) :
    ("git diff-tree --no-color -r -c " ++ Y).data
      = "git diff-tree --no-color -r ".data ++ ('-' :: 'c' :: ' ' :: Y.data) := by
  rw [String.data_append]
  rfl

/-- A fast-path identifier (40 characters long) can never make the
pairwise command collide with the single-commit command. -/
theorem pairCmd_ne_plainCmd (X Y : String) (hlen : X.length = 40) :
    ("git diff-tree --no-color -r " ++ X ++ " " ++ Y)
      ≠ ("git diff-tree --no-color -r -c " ++ Y) := by
  intro he
  have hd := congrArg String.data he
  rw [pairCmd_data, plainCmd_data] at hd
  have h2 := List.append_cancel_left hd
  have h3 := congrArg List.length h2
  simp only [List.length_append, List.length_cons] at h3
  have h4 : X.data.length = 40 := hlen
  omega

/-- One reduction step of the fuelled replacement when the pattern
matches at the front. -/
theorem replaceFuel_step (pat rep : List Char) (fuel : Nat) (c : Char)
    (cs : List Char) (hne : pat.isEmpty = false)
    (hpre : pat.isPrefixOf (c :: cs) = true) :
    replaceFuel pat rep (fuel + 1) (c :: cs)
      = rep ++ replaceFuel pat rep fuel (List.drop (pat.length - 1) cs) := by
  simp [replaceFuel, hne, hpre]

/-- The `-C`-inserted form of the single-commit command starts with
"git diff-tree -C". -/
theorem renameCmd_data (Y : String) :
    ∃ t, (qreplace ("git diff-tree --no-color -r -c " ++ Y)
            "git diff-tree" "git diff-tree -C").data
          = "git diff-tree -C".data ++ t := by
  have hb2 : ("git diff-tree --no-color -r -c " ++ Y).data
      = 'g' :: ("it diff-tree --no-color -r -c ".data ++ Y.data) := by
    rw [String.data_append]
    rfl
  have hlen2 : ("git diff-tree --no-color -r -c " ++ Y).data.length
      = ("it diff-tree --no-color -r -c ".data ++ Y.data).length + 1 := by
    rw [hb2]
    rfl
  refine ⟨replaceFuel "git diff-tree".data "git diff-tree -C".data
            (("it diff-tree --no-color -r -c ".data ++ Y.data).length)
            (List.drop 12 ("it diff-tree --no-color -r -c ".data ++ Y.data)),
          ?_⟩
  show replaceFuel "git diff-tree".data "git diff-tree -C".data
      ("git diff-tree --no-color -r -c " ++ Y).data.length
      ("git diff-tree --no-color -r -c " ++ Y).data = _
  rw [hlen2, hb2]
  rw [replaceFuel_step "git diff-tree".data "git diff-tree -C".data
      (("it diff-tree --no-color -r -c ".data ++ Y.data).length) 'g'
      ("it diff-tree --no-color -r -c ".data ++ Y.data) rfl rfl]
  rfl

/-- The pairwise command can never collide with the `-C`-inserted form
of the single-commit command. -/
theorem pairCmd_ne_renameCmd (X Y : String) :
    ("git diff-tree --no-color -r " ++ X ++ " " ++ Y)
      ≠ qreplace ("git diff-tree --no-color -r -c " ++ Y)
          "git diff-tree" "git diff-tree -C" := by
  intro he
  obtain ⟨t, ht⟩ := renameCmd_data Y
  have hd := congrArg String.data he
  rw [pairCmd_data, ht] at hd
  exact ne_append_of_get_ne "git diff-tree --no-color -r ".data
    "git diff-tree -C".data (X.data ++ (' ' :: Y.data)) t 15
    (by decide) (by decide) (by decide) hd

/-- The trace of `isTreeModified` is the trace of its file-cache
request. -/
theorem isTreeModified_trace (st : GitState) (env : Env) (sha : String) :
    (isTreeModified st env sha).2.2 = (getFiles st env sha "" false "").2.2 := by
  rw [isTreeModified]
  rcases hg : getFiles st env sha "" false "" with ⟨fo, st1, tr⟩
  rcases fo with _ | f <;> rfl

/-- The trace of the retrying diff-tree runner holds only the two
related command forms. -/
theorem runDiffTree_trace (st : GitState) (env : Env) (c : String)
    {res : Option String} {st1 : GitState} {tr : List String}
    (h : runDiffTreeWithRenameDetection st env c = (res, st1, tr)) :
    tr = [qreplace c "git diff-tree" "git diff-tree -C"] ∨
    tr = [qreplace c "git diff-tree" "git diff-tree -C", c] := by
  rcases hrr : env.runRes (qreplace c "git diff-tree" "git diff-tree -C")
    with _ | out
  · simp only [runDiffTreeWithRenameDetection, hrr] at h
    right
    exact (congrArg (fun q => q.2.2) h).symm
  · simp only [runDiffTreeWithRenameDetection, hrr] at h
    left
    exact (congrArg (fun q => q.2.2) h).symm

/-- Membership form of the runner-trace characterization. -/
theorem mem_runDiffTree_trace (st : GitState) (env : Env) (c : String)
    {res : Option String} {st1 : GitState} {tr : List String}
    (h : runDiffTreeWithRenameDetection st env c = (res, st1, tr)) :
    ∀ e ∈ tr, e = qreplace c "git diff-tree" "git diff-tree -C" ∨ e = c := by
  intro e he
  rcases runDiffTree_trace st env c h with h1 | h1
  · rw [h1] at he
    simp at he
    left
    exact he
  · rw [h1] at he
    simp at he
    exact he

/-- Every command issued by the single-commit branch is one of the two
diff-tree-against-parent command forms. -/
theorem getFilesPlain_trace (st : GitState) (env : Env) (sha : String) :
    ∀ e ∈ (getFilesPlain st env sha).2.2,
      e = qreplace ("git diff-tree --no-color -r -c " ++ sha)
            "git diff-tree" "git diff-tree -C" ∨
      e = "git diff-tree --no-color -r -c " ++ sha := by
  rw [getFilesPlain]
  rcases hl : List.lookup sha st.revsFiles with _ | rf
  · simp only []
    by_cases hzs : (sha == ZERO_SHA) = true
    · rw [if_pos hzs]
      intro e he
      simp at he
    · rw [if_neg hzs]
      rcases hr : runDiffTreeWithRenameDetection st env
          ("git diff-tree --no-color -r -c " ++ sha) with ⟨res, stx, trx⟩
      rcases res with _ | out
      · intro e he
        exact mem_runDiffTree_trace st env _ hr e he
      · simp only []
        rcases hl2 : List.lookup sha stx.revsFiles with _ | rf2
        · simp only []
          intro e he
          exact mem_runDiffTree_trace st env _ hr e he
        · simp only []
          intro e he
          exact mem_runDiffTree_trace st env _ hr e he
  · intro e he
    simp at he

/-- Every command issued by a plain (no diff target, single parent
semantics) `getFiles` request is one of the two diff-tree-against-parent
command forms. -/
theorem getFiles_noDiff_trace (st : GitState) (env : Env) (sha : String) :
    ∀ e ∈ (getFiles st env sha "" false "").2.2,
      e = qreplace ("git diff-tree --no-color -r -c " ++ sha)
            "git diff-tree" "git diff-tree -C" ∨
      e = "git diff-tree --no-color -r -c " ++ sha := by
  rw [getFiles]
  rcases hrl : revLookup st sha with _ | r
  · intro e he
    simp at he
  · simp only []
    by_cases h0 : (r.parents.length == 0) = true
    · rw [if_pos h0]
      intro e he
      simp at he
    · rw [if_neg h0, if_neg (by simp), if_neg (by simp)]
      exact getFilesPlain_trace st env sha

/-- C1: when X is the sole parent of Y, `isSameFiles(X,Y)` takes the
fast path: it returns exactly the negation of `isTreeModified(Y)`
(computed on the same state), and the pairwise
`git diff-tree --no-color -r X Y` invocation of the general case is
never among the commands it issues. -/
theorem isSameFiles_soleParent_fastPath (st : GitState) (env : Env)
    (X Y : String) (c : Rev) (hc : revLookup st Y = some c)
    (hp : c.parents = [X]) (hlen : X.length = 40) :
    (isSameFiles st env X Y).1 = !(isTreeModified st env Y).1 ∧
    ¬ ("git diff-tree --no-color -r " ++ X ++ " " ++ Y)
        ∈ (isSameFiles st env X Y).2.2 := by
  have hpar : isParentOf st X Y = true := by simp [isParentOf, hc, hp]
  constructor
  · rw [isSameFiles, if_pos hpar]
  · rw [isSameFiles, if_pos hpar]
    rcases hT : isTreeModified st env Y with ⟨b, st1, tr⟩
    simp only []
    intro hmem
    have htr : tr = (getFiles st env Y "" false "").2.2 := by
      have h2 := isTreeModified_trace st env Y
      rw [hT] at h2
      exact h2
    rw [htr] at hmem
    rcases getFiles_noDiff_trace st env Y _ hmem with he | he
    · exact pairCmd_ne_renameCmd X Y he
    · exact pairCmd_ne_plainCmd X Y hlen he

/-- Witness for C1 at two concrete full-length identifiers. -/
theorem isSameFiles_soleParent_fastPath_witness :
    (isSameFiles parentSt constEnv shaA shaB).1
      = !(isTreeModified parentSt constEnv shaB).1 ∧
    ¬ ("git diff-tree --no-color -r " ++ shaA ++ " " ++ shaB)
        ∈ (isSameFiles parentSt constEnv shaA shaB).2.2 :=
  isSameFiles_soleParent_fastPath parentSt constEnv shaA shaB
    (mkRev [shaA] 0) (by decide) rfl (by decide)

end QGitx

